import Mathlib

/-!
Shallow embedding of `src/network.ts` from vofus/basic-ts-neural-network:
a three-layer feed-forward neural network trained by stochastic online
backpropagation.  Matrices (numjs `NdArray`s as used by the code: always
2-D, float64) are modelled as a shape together with a total entry
function into ℝ.  numjs raises on a misaligned `dot`, so the embedded
`dotE` and everything built on it return `Except`.  The repository files
`utils.ts` (the random sampler) and `activators.ts` (the `Sigmoid`
strategy) are imported by `network.ts` but are not part of the given
sources; they are modelled from the spec where indicated.
-/

/-- Error taxonomy. Modelled from the spec: `network.ts` raises untyped
runtime errors (a misaligned numjs `dot`, indexing an empty array); the
spec classifies them as `DimensionMismatch` and `InvalidArgument`. -/
inductive NetError where
  | invalidArgument : NetError
  | dimensionMismatch : NetError
deriving DecidableEq

/-- A numjs 2-D `NdArray`: a shape plus a total entry function. -/
@[ext]
structure NdArray where
  rows : ℕ
  cols : ℕ
  entry : ℕ → ℕ → ℝ

namespace NdArray

/-- numjs `.T`: matrix transpose. -/
def transpose (a : NdArray) : NdArray :=
  ⟨a.cols, a.rows, fun i j => a.entry j i⟩

/-- numjs `dot` of two 2-D arrays, entrywise (total function; the
alignment requirement is checked by `dotE`). -/
def dot (a b : NdArray) : NdArray :=
  ⟨a.rows, b.cols, fun i j => ∑ k ∈ Finset.range a.cols, a.entry i k * b.entry k j⟩

/-- numjs `dot`, which raises when the inner dimensions are misaligned. -/
def dotE (a b : NdArray) : Except NetError NdArray :=
  if a.cols = b.rows then Except.ok (a.dot b) else Except.error NetError.dimensionMismatch

/-- numjs elementwise `add` (shapes coincide at every use site). -/
def add (a b : NdArray) : NdArray :=
  ⟨a.rows, a.cols, fun i j => a.entry i j + b.entry i j⟩

/-- numjs elementwise `subtract` (shapes coincide at every use site). -/
def subtract (a b : NdArray) : NdArray :=
  ⟨a.rows, a.cols, fun i j => a.entry i j - b.entry i j⟩

/-- numjs elementwise `multiply` of two arrays of the same shape. -/
def multiply (a b : NdArray) : NdArray :=
  ⟨a.rows, a.cols, fun i j => a.entry i j * b.entry i j⟩

/-- numjs `.multiply(c)` with a scalar: elementwise scaling. -/
def scale (a : NdArray) (c : ℝ) : NdArray :=
  ⟨a.rows, a.cols, fun i j => a.entry i j * c⟩

/-- numjs `nj.ones(a.shape)`. -/
def onesLike (a : NdArray) : NdArray :=
  ⟨a.rows, a.cols, fun _ _ => 1⟩

/-- Apply a function elementwise (the activation strategies work this way). -/
def map (a : NdArray) (f : ℝ → ℝ) : NdArray :=
  ⟨a.rows, a.cols, fun i j => f (a.entry i j)⟩

end NdArray

/-- `nj.array(xs).reshape(1, xs.length).T`: a column vector holding the
list entries, as built in `query` and `trainStep`. -/
def colVec (xs : List ℝ) : NdArray :=
  ⟨xs.length, 1, fun i _ => xs.getD i 0⟩

/-- Modelled from the spec: an `ActivationStrategy` is an elementwise
transform, so it is embedded as the scalar function it applies
(`execute` is `NdArray.map`). -/
def ActivationStrategy : Type := ℝ → ℝ

/-- Modelled from the spec: the logistic sigmoid implemented by the
`Sigmoid` strategy of `activators.ts` (a file not among the given
sources): `σ(x) = 1 / (1 + e^(−x))`. -/
noncomputable def Sigmoid (x : ℝ) : ℝ :=
  1 / (1 + Real.exp (-x))

/-- The `IForwardResult` record of `network.ts`. -/
structure IForwardResult where
  hiddenOutputs : NdArray
  finalOutputs : NdArray

/-- The `ITrainItem` record of `network.ts`. -/
structure ITrainItem where
  inputs : List ℝ
  targets : List ℝ

/-- `TrainSet` of `network.ts`. -/
def TrainSet : Type := List ITrainItem

/-- The `Network` class state: the two weight matrices, the stored
activation strategy, and the constructor parameters. -/
@[ext]
structure Network where
  inputSize : ℕ
  hiddenSize : ℕ
  outputSize : ℕ
  LR : ℝ
  weightsIH : NdArray
  weightsHO : NdArray
  activator : ActivationStrategy

namespace Network

/-- `generateWeights(rows, columns)`: `nj.random([rows, columns]).subtract(0.5)`.
The pseudo-random draw is modelled as an injected entry function (the
spec treats the values as independent uniforms in [-0.5, 0.5); only the
shape matters to the claims). -/
def generateWeights (rows columns : ℕ) (rand : ℕ → ℕ → ℝ) : NdArray :=
  ⟨rows, columns, rand⟩

/-- The `Network` constructor: stores the sizes and the learning rate,
allocates `weightsIH` as `generateWeights(hiddenSize, inputSize)` and
`weightsHO` as `generateWeights(outputSize, hiddenSize)`, and defaults
the activator to `Sigmoid`. -/
noncomputable def make (inputSize hiddenSize outputSize : ℕ) (LR : ℝ)
    (randIH randHO : ℕ → ℕ → ℝ) : Network :=
  { inputSize := inputSize
    hiddenSize := hiddenSize
    outputSize := outputSize
    LR := LR
    weightsIH := generateWeights hiddenSize inputSize randIH
    weightsHO := generateWeights outputSize hiddenSize randHO
    activator := Sigmoid }

/-- `forwardPropagation(inputMatrix)` from `network.ts`:
`hiddenInputs = weightsIH.dot(inputMatrix)`,
`hiddenOutputs = activator.execute(hiddenInputs)`,
`finalInputs = weightsHO.dot(hiddenOutputs)`,
`finalOutputs = activator.execute(finalInputs)`.
It reads the weights and the activator and assigns no field. -/
def forwardPropagation (net : Network) (inputMatrix : NdArray) :
    Except NetError IForwardResult := do
  let hiddenInputs ← NdArray.dotE net.weightsIH inputMatrix
  let hiddenOutputs := hiddenInputs.map net.activator
  let finalInputs ← NdArray.dotE net.weightsHO hiddenOutputs
  let finalOutputs := finalInputs.map net.activator
  Except.ok ⟨hiddenOutputs, finalOutputs⟩

/-- `calcAdditionalWeights(inputs, outputs, errors)` from `network.ts`:
`nj.dot(errors.multiply(outputs).multiply(ones − outputs), inputs.T).multiply(LR)`. -/
def calcAdditionalWeights (net : Network) (inputs outputs errors : NdArray) :
    Except NetError NdArray := do
  let ones := NdArray.onesLike outputs
  let arg1 := (errors.multiply outputs).multiply (ones.subtract outputs)
  let arg2 := inputs.transpose
  let d ← NdArray.dotE arg1 arg2
  Except.ok (d.scale net.LR)

/-- `backPropagation(inputMatrix, targetMatrix, result)` from `network.ts`:
`outputErrors = targetMatrix.subtract(finalOutputs)`;
`hiddenErrors = weightsHO.T.dot(outputErrors)`;
`additionalHO = calcAdditionalWeights(hiddenOutputs, finalOutputs, outputErrors)`;
`additionalIH = calcAdditionalWeights(inputMatrix, hiddenOutputs, hiddenErrors)`;
then `weightsHO = weightsHO.add(additionalHO)` and
`weightsIH = weightsIH.add(additionalIH)`. -/
def backPropagation (net : Network) (inputMatrix targetMatrix : NdArray)
    (result : IForwardResult) : Except NetError Network := do
  let outputErrors := targetMatrix.subtract result.finalOutputs
  let hiddenErrors ← NdArray.dotE net.weightsHO.transpose outputErrors
  let additionalHO ← net.calcAdditionalWeights result.hiddenOutputs result.finalOutputs outputErrors
  let additionalIH ← net.calcAdditionalWeights inputMatrix result.hiddenOutputs hiddenErrors
  Except.ok { net with
    weightsHO := net.weightsHO.add additionalHO
    weightsIH := net.weightsIH.add additionalIH }

/-- `trainStep(inputs, targets)` from `network.ts`: build the two column
vectors, run the forward pass, then the backward pass. -/
def trainStep (net : Network) (inputs targets : List ℝ) : Except NetError Network := do
  let inputMatrix := colVec inputs
  let targetMatrix := colVec targets
  let forwardResult ← net.forwardPropagation inputMatrix
  net.backPropagation inputMatrix targetMatrix forwardResult

/-- The `while (counter > 0)` loop of `train`.  `sampler k` is the value
`getRandomInt(0, trainSet.length)` returns on the k-th iteration
(`utils.ts` is not among the given sources; modelled from the spec as an
injected uniform index sampler).  Indexing an empty or overrun
`trainSet` in JS yields `undefined` and the destructuring throws, the
spec's `InvalidArgument`. -/
def trainLoop (trainSet : TrainSet) (sampler : ℕ → ℕ) :
    Network → ℕ → ℕ → Except NetError Network
  | net, 0, _ => Except.ok net
  | net, counter + 1, k =>
      let randIndex := sampler k
      match trainSet.get? randIndex with
      | none => Except.error NetError.invalidArgument
      | some item => do
          let net' ← net.trainStep item.inputs item.targets
          trainLoop trainSet sampler net' counter (k + 1)

/-- `train(trainSet, count, activator?)` from `network.ts`: if an
activator is supplied it overwrites the stored strategy, then the loop
runs `count` sampled training steps. -/
def train (net : Network) (trainSet : TrainSet) (count : ℕ)
    (activator? : Option ActivationStrategy) (sampler : ℕ → ℕ) :
    Except NetError Network :=
  let net1 := match activator? with
    | some a => { net with activator := a }
    | none => net
  trainLoop trainSet sampler net1 count 0

/-- `query(inputs)` from `network.ts`: build the input column, run the
forward pass, return `finalOutputs`. -/
def query (net : Network) (inputs : List ℝ) : Except NetError NdArray := do
  let inputMatrix := colVec inputs
  let result ← net.forwardPropagation inputMatrix
  Except.ok result.finalOutputs

/-- The shape invariant of §3 of the spec: `weightsIH` is
hiddenSize × inputSize and `weightsHO` is outputSize × hiddenSize. -/
def WellFormed (net : Network) : Prop :=
  net.weightsIH.rows = net.hiddenSize ∧ net.weightsIH.cols = net.inputSize ∧
  net.weightsHO.rows = net.outputSize ∧ net.weightsHO.cols = net.hiddenSize

instance (net : Network) : Decidable net.WellFormed := by
  unfold WellFormed
  infer_instance

end Network

/-- Scalar multiplication on the left, as the spec writes `LR · [...]`. -/
def specScale (c : ℝ) (a : NdArray) : NdArray :=
  ⟨a.rows, a.cols, fun i j => c * a.entry i j⟩

/-- The spec's delta formula, written from its words:
`Δ = LR · [(errors ⊙ outputs ⊙ (1 − outputs)) · inputsᵗ]`. -/
def specDelta (LR : ℝ) (errors outputs inputs : NdArray) : NdArray :=
  specScale LR
    (NdArray.dot
      ((errors.multiply outputs).multiply ((NdArray.onesLike outputs).subtract outputs))
      inputs.transpose)

/-- Two networks agree on every field `train` reads: the weight
matrices, the learning rate, and the activation strategy (they may
differ in the stored size fields, which `train` never consults). -/
def SameCore (a b : Network) : Prop :=
  a.weightsIH = b.weightsIH ∧ a.weightsHO = b.weightsHO ∧
  a.LR = b.LR ∧ a.activator = b.activator

/-- Lift `SameCore` to `Except` results: equal errors, or successes
with the same core. -/
def ExceptSameCore : Except NetError Network → Except NetError Network → Prop
  | Except.ok a, Except.ok b => SameCore a b
  | Except.error e1, Except.error e2 => e1 = e2
  | _, _ => False

/-- A concrete well-formed network fixture (inputSize 3, hiddenSize 2,
outputSize 1, learning rate 0.3, constant weights, identity activator)
used to instantiate the theorems. -/
def netW : Network :=
  { inputSize := 3
    hiddenSize := 2
    outputSize := 1
    LR := 2
    weightsIH := ⟨2, 3, fun _ _ => 1⟩
    weightsHO := ⟨1, 2, fun _ _ => 1⟩
    activator := fun x => x }

/-! ## Helper lemmas -/

lemma ok_bind {α β : Type} (a : α) (f : α → Except NetError β) :
    (Except.ok a >>= f) = f a := rfl

lemma error_bind {α β : Type} (e : NetError) (f : α → Except NetError β) :
    ((Except.error e : Except NetError α) >>= f) = Except.error e := rfl

lemma dotE_ok {a b : NdArray} (h : a.cols = b.rows) :
    NdArray.dotE a b = Except.ok (a.dot b) := by
  simp [NdArray.dotE, h]

lemma dotE_err {a b : NdArray} (h : a.cols ≠ b.rows) :
    NdArray.dotE a b = Except.error NetError.dimensionMismatch := by
  simp [NdArray.dotE, h]

/-- On success, `backPropagation` returns the input network with each
weight matrix replaced by its elementwise sum with some delta; every
other field is untouched. -/
lemma backPropagation_ok_form {net : Network} {input target : NdArray}
    {r : IForwardResult} {net' : Network}
    (h : net.backPropagation input target r = Except.ok net') :
    ∃ dHO dIH, net' = { net with
      weightsHO := net.weightsHO.add dHO
      weightsIH := net.weightsIH.add dIH } := by
  simp only [Network.backPropagation] at h
  cases h1 : NdArray.dotE net.weightsHO.transpose (target.subtract r.finalOutputs) with
  | error e => rw [h1, error_bind] at h; exact absurd h (by simp)
  | ok hiddenErrors =>
    rw [h1, ok_bind] at h
    cases h2 : net.calcAdditionalWeights r.hiddenOutputs r.finalOutputs
        (target.subtract r.finalOutputs) with
    | error e => rw [h2, error_bind] at h; exact absurd h (by simp)
    | ok dHO =>
      rw [h2, ok_bind] at h
      cases h3 : net.calcAdditionalWeights input r.hiddenOutputs hiddenErrors with
      | error e => rw [h3, error_bind] at h; exact absurd h (by simp)
      | ok dIH =>
        rw [h3, ok_bind] at h
        exact ⟨dHO, dIH, (Except.ok.injEq _ _ ▸ h).symm⟩

/-- On success, `trainStep` returns the input network with each weight
matrix replaced by its sum with some delta; other fields untouched. -/
lemma trainStep_ok_form {net : Network} {inputs targets : List ℝ} {net' : Network}
    (h : net.trainStep inputs targets = Except.ok net') :
    ∃ dHO dIH, net' = { net with
      weightsHO := net.weightsHO.add dHO
      weightsIH := net.weightsIH.add dIH } := by
  simp only [Network.trainStep] at h
  cases h1 : net.forwardPropagation (colVec inputs) with
  | error e => rw [h1, error_bind] at h; exact absurd h (by simp)
  | ok fr =>
    rw [h1, ok_bind] at h
    exact backPropagation_ok_form h

/-- On success, `trainLoop` preserves the sizes, the learning rate, the
activator, and the shapes of both weight matrices. -/
lemma trainLoop_ok_preserves {trainSet : TrainSet} {sampler : ℕ → ℕ} :
    ∀ {counter k : ℕ} {net net' : Network},
    Network.trainLoop trainSet sampler net counter k = Except.ok net' →
    net'.inputSize = net.inputSize ∧ net'.hiddenSize = net.hiddenSize ∧
    net'.outputSize = net.outputSize ∧ net'.LR = net.LR ∧
    net'.activator = net.activator ∧
    net'.weightsIH.rows = net.weightsIH.rows ∧
    net'.weightsIH.cols = net.weightsIH.cols ∧
    net'.weightsHO.rows = net.weightsHO.rows ∧
    net'.weightsHO.cols = net.weightsHO.cols := by
  intro counter
  induction counter with
  | zero =>
    intro k net net' h
    simp only [Network.trainLoop] at h
    simp at h
    subst h
    exact ⟨rfl, rfl, rfl, rfl, rfl, rfl, rfl, rfl, rfl⟩
  | succ c ih =>
    intro k net net' h
    simp only [Network.trainLoop] at h
    split at h
    case _ => exact absurd h (by simp)
    case _ item hidx =>
      cases hstep : net.trainStep item.inputs item.targets with
      | error e => rw [hstep, error_bind] at h; exact absurd h (by simp)
      | ok nmid =>
        rw [hstep, ok_bind] at h
        obtain ⟨dHO, dIH, hform⟩ := trainStep_ok_form hstep
        obtain ⟨e1, e2, e3, e4, e5, e6, e7, e8, e9⟩ := ih h
        subst hform
        exact ⟨e1, e2, e3, e4, e5, e6, e7, e8, e9⟩


/-- Evaluate `forwardPropagation` when both products are aligned. -/
lemma forwardPropagation_eval (net : Network) (input : NdArray)
    (h1 : net.weightsIH.cols = input.rows)
    (h2 : net.weightsHO.cols = net.weightsIH.rows) :
    net.forwardPropagation input = Except.ok
      ⟨(net.weightsIH.dot input).map net.activator,
       (net.weightsHO.dot ((net.weightsIH.dot input).map net.activator)).map net.activator⟩ := by
  simp only [Network.forwardPropagation]
  rw [dotE_ok h1, ok_bind,
    dotE_ok (show net.weightsHO.cols = ((net.weightsIH.dot input).map net.activator).rows from h2),
    ok_bind]

/-- The logistic sigmoid maps every real into the open interval (0, 1). -/
lemma sigmoid_mem_unit (x : ℝ) : 0 < Sigmoid x ∧ Sigmoid x < 1 := by
  have he : 0 < Real.exp (-x) := Real.exp_pos _
  unfold Sigmoid
  constructor
  · exact div_pos one_pos (by linarith)
  · rw [div_lt_one (by linarith)]
    linarith

lemma forwardPropagation_congr {net1 net2 : Network} (h : SameCore net1 net2)
    (m : NdArray) : net1.forwardPropagation m = net2.forwardPropagation m := by
  obtain ⟨h1, h2, _, h4⟩ := h
  simp only [Network.forwardPropagation, h1, h2, h4]

lemma calcAdditionalWeights_congr {net1 net2 : Network} (h : SameCore net1 net2)
    (i o e : NdArray) :
    net1.calcAdditionalWeights i o e = net2.calcAdditionalWeights i o e := by
  obtain ⟨_, _, h3, _⟩ := h
  simp only [Network.calcAdditionalWeights, h3]

lemma exceptSameCore_bind {α : Type} {X : Except NetError α}
    {f g : α → Except NetError Network}
    (h : ∀ a, ExceptSameCore (f a) (g a)) : ExceptSameCore (X >>= f) (X >>= g) := by
  cases X with
  | error e => exact rfl
  | ok a => exact h a

lemma backPropagation_sameCore {net1 net2 : Network} (h : SameCore net1 net2)
    (i t : NdArray) (r : IForwardResult) :
    ExceptSameCore (net1.backPropagation i t r) (net2.backPropagation i t r) := by
  obtain ⟨h1, h2, h3, h4⟩ := h
  simp only [Network.backPropagation, h1, h2, calcAdditionalWeights_congr ⟨h1, h2, h3, h4⟩]
  apply exceptSameCore_bind; intro he
  apply exceptSameCore_bind; intro aHO
  apply exceptSameCore_bind; intro aIH
  exact ⟨rfl, rfl, h3, h4⟩

lemma trainStep_sameCore {net1 net2 : Network} (h : SameCore net1 net2)
    (inputs targets : List ℝ) :
    ExceptSameCore (net1.trainStep inputs targets) (net2.trainStep inputs targets) := by
  simp only [Network.trainStep, forwardPropagation_congr h]
  exact exceptSameCore_bind (fun fr => backPropagation_sameCore h _ _ fr)

lemma trainLoop_succ_none {trainSet : TrainSet} {sampler : ℕ → ℕ} {k : ℕ}
    (net : Network) (c : ℕ) (h : trainSet.get? (sampler k) = none) :
    Network.trainLoop trainSet sampler net (c + 1) k =
      Except.error NetError.invalidArgument := by
  simp only [Network.trainLoop, h]

lemma trainLoop_succ_some {trainSet : TrainSet} {sampler : ℕ → ℕ} {k : ℕ}
    {item : ITrainItem} (net : Network) (c : ℕ)
    (h : trainSet.get? (sampler k) = some item) :
    Network.trainLoop trainSet sampler net (c + 1) k =
      (net.trainStep item.inputs item.targets >>= fun n =>
        Network.trainLoop trainSet sampler n c (k + 1)) := by
  simp only [Network.trainLoop, h]

lemma trainLoop_sameCore {trainSet : TrainSet} {sampler : ℕ → ℕ} :
    ∀ {c k : ℕ} {net1 net2 : Network}, SameCore net1 net2 →
    ExceptSameCore (Network.trainLoop trainSet sampler net1 c k)
      (Network.trainLoop trainSet sampler net2 c k) := by
  intro c
  induction c with
  | zero => intro k net1 net2 h; exact h
  | succ c ih =>
    intro k net1 net2 h
    cases hget : trainSet.get? (sampler k) with
    | none =>
      rw [trainLoop_succ_none net1 c hget, trainLoop_succ_none net2 c hget]
      exact rfl
    | some item =>
      rw [trainLoop_succ_some net1 c hget, trainLoop_succ_some net2 c hget]
      have hstep := trainStep_sameCore h item.inputs item.targets
      cases hs1 : net1.trainStep item.inputs item.targets with
      | error e1 =>
        cases hs2 : net2.trainStep item.inputs item.targets with
        | error e2 =>
          rw [hs1, hs2] at hstep
          have he : e1 = e2 := hstep
          subst he
          rw [error_bind]
          exact rfl
        | ok b =>
          rw [hs1, hs2] at hstep
          exact hstep.elim
      | ok a =>
        cases hs2 : net2.trainStep item.inputs item.targets with
        | error e2 =>
          rw [hs1, hs2] at hstep
          exact hstep.elim
        | ok b =>
          rw [hs1, hs2] at hstep
          rw [ok_bind, ok_bind]
          exact ih hstep

/-- Networks with the same core produce the same final weights (and the
same error, on failure) from the training loop. -/
lemma trainLoop_core_eq {net1 net2 : Network} (h : SameCore net1 net2)
    (trainSet : TrainSet) (sampler : ℕ → ℕ) (c k : ℕ) :
    Except.map (fun n => (n.weightsIH, n.weightsHO))
        (Network.trainLoop trainSet sampler net1 c k) =
      Except.map (fun n => (n.weightsIH, n.weightsHO))
        (Network.trainLoop trainSet sampler net2 c k) := by
  have hE := @trainLoop_sameCore trainSet sampler c k net1 net2 h
  cases hr1 : Network.trainLoop trainSet sampler net1 c k with
  | error e1 =>
    cases hr2 : Network.trainLoop trainSet sampler net2 c k with
    | error e2 =>
      rw [hr1, hr2] at hE
      have he : e1 = e2 := hE
      subst he
      rfl
    | ok b => rw [hr1, hr2] at hE; exact hE.elim
  | ok a =>
    cases hr2 : Network.trainLoop trainSet sampler net2 c k with
    | error e2 => rw [hr1, hr2] at hE; exact hE.elim
    | ok b =>
      rw [hr1, hr2] at hE
      obtain ⟨e1, e2, _, _⟩ := hE
      simp [Except.map, e1, e2]

/-- Evaluate `calcAdditionalWeights` when the product is aligned. -/
lemma calcAdditionalWeights_eval (net : Network) (inputs outputs errors : NdArray)
    (h : errors.cols = inputs.cols) :
    net.calcAdditionalWeights inputs outputs errors = Except.ok
      ((((errors.multiply outputs).multiply
          ((NdArray.onesLike outputs).subtract outputs)).dot inputs.transpose).scale net.LR) := by
  simp only [Network.calcAdditionalWeights]
  rw [dotE_ok (show ((errors.multiply outputs).multiply
      ((NdArray.onesLike outputs).subtract outputs)).cols = inputs.transpose.rows from h),
    ok_bind]

/-- Multiplying by the learning rate on the right (as the code does after
the dot product) equals the spec's left scalar multiple. -/
lemma scale_eq_specScale (a : NdArray) (c : ℝ) : a.scale c = specScale c a := by
  refine NdArray.ext rfl rfl ?_
  funext i j
  exact mul_comm _ _

/-! ## Claim theorems -/

/-- C6: for every Network and every non-empty trainSet, `train(trainSet, 0)`
leaves both weight matrices bit-identical to before the call (the
returned network is the input network itself). -/
theorem train_zero_iterations_noop (net : Network) (trainSet : TrainSet)
    (sampler : ℕ → ℕ) (hne : trainSet ≠ []) :
    net.train trainSet 0 none sampler = Except.ok net := rfl

theorem train_zero_iterations_noop_witness :
    ([⟨[1, 2, 3], [0]⟩] : TrainSet) ≠ [] ∧
    netW.train [⟨[1, 2, 3], [0]⟩] 0 none (fun _ => 0) = Except.ok netW :=
  ⟨by simp, train_zero_iterations_noop netW [⟨[1, 2, 3], [0]⟩] (fun _ => 0) (by simp)⟩

/-- C10: `train(trainSet, 0, activator)` still replaces the stored
strategy (the swap happens before the loop), runs no step, leaves the
weights unchanged; the train set is arbitrary, including empty. -/
theorem train_zero_with_activator_swaps (net : Network) (trainSet : TrainSet)
    (a : ActivationStrategy) (sampler : ℕ → ℕ) :
    net.train trainSet 0 (some a) sampler = Except.ok { net with activator := a } := rfl

/-- C4: training on an empty trainSet with count > 0 fails with
`InvalidArgument`; `count = 0` is a legal no-op that does not fail. -/
theorem train_empty_set_errors (net : Network) (trainSet : TrainSet) (count : ℕ)
    (activator? : Option ActivationStrategy) (sampler : ℕ → ℕ) (hc : 0 < count) :
    net.train ([] : TrainSet) count activator? sampler = Except.error NetError.invalidArgument ∧
    (net.train trainSet 0 activator? sampler).isOk = true := by
  constructor
  · cases count with
    | zero => exact absurd hc (by simp)
    | succ c =>
      cases activator? with
      | none => simp [Network.train, Network.trainLoop, List.get?]
      | some a => simp [Network.train, Network.trainLoop, List.get?]
  · cases activator? with
    | none => rfl
    | some a => rfl

theorem train_empty_set_errors_witness :
    0 < 1 ∧
    (netW.train ([] : TrainSet) 1 none (fun _ => 0) = Except.error NetError.invalidArgument ∧
      (netW.train [⟨[1, 2, 3], [0]⟩] 0 none (fun _ => 0)).isOk = true) :=
  ⟨by decide, train_empty_set_errors netW [⟨[1, 2, 3], [0]⟩] 1 none (fun _ => 0) (by decide)⟩

/-- C7: supplying an activator to `train` permanently replaces the stored
strategy: the whole call behaves as if the network had the new strategy
from the start (every iteration uses it), and on success the returned
network stores the new strategy, so subsequent `query`/`train` calls use
it until another activator is supplied. -/
theorem train_activator_swap_persists (net : Network) (trainSet : TrainSet)
    (count : ℕ) (a : ActivationStrategy) (sampler : ℕ → ℕ) (net' : Network)
    (h : net.train trainSet count (some a) sampler = Except.ok net') :
    net.train trainSet count (some a) sampler =
      Network.train { net with activator := a } trainSet count none sampler ∧
    net'.activator = a := by
  constructor
  · rfl
  · simp only [Network.train] at h
    exact (trainLoop_ok_preserves h).2.2.2.2.1

theorem train_activator_swap_persists_witness :
    netW.train ([] : TrainSet) 0 (some Sigmoid) (fun _ => 0) =
      Except.ok { netW with activator := Sigmoid } ∧
    (netW.train ([] : TrainSet) 0 (some Sigmoid) (fun _ => 0) =
      Network.train { netW with activator := Sigmoid } ([] : TrainSet) 0 none (fun _ => 0) ∧
    ({ netW with activator := Sigmoid } : Network).activator = Sigmoid) :=
  ⟨rfl, train_activator_swap_persists netW [] 0 Sigmoid (fun _ => 0)
    { netW with activator := Sigmoid } rfl⟩

/-- C2: for every input column vector of length `inputSize`,
`forwardPropagation` returns `hiddenOutputs = activator(weightsIH · input)`
and `finalOutputs = activator(weightsHO · hiddenOutputs)`; the embedding
is a function of the current weights and the input and returns no
modified network, mirroring the source, which assigns no field. -/
theorem forwardPropagation_matches_spec (net : Network) (input : NdArray)
    (hwf : net.WellFormed) (hrows : input.rows = net.inputSize)
    (hcols : input.cols = 1) :
    net.forwardPropagation input = Except.ok
      ⟨(net.weightsIH.dot input).map net.activator,
       (net.weightsHO.dot ((net.weightsIH.dot input).map net.activator)).map net.activator⟩ := by
  obtain ⟨w1, w2, w3, w4⟩ := hwf
  exact forwardPropagation_eval net input (by rw [w2, hrows]) (by rw [w4, w1])

theorem forwardPropagation_matches_spec_witness :
    netW.WellFormed ∧ (colVec [1, 2, 3]).rows = netW.inputSize ∧
    (colVec [1, 2, 3]).cols = 1 ∧
    netW.forwardPropagation (colVec [1, 2, 3]) = Except.ok
      ⟨(netW.weightsIH.dot (colVec [1, 2, 3])).map netW.activator,
       (netW.weightsHO.dot ((netW.weightsIH.dot (colVec [1, 2, 3])).map netW.activator)).map
         netW.activator⟩ :=
  ⟨⟨rfl, rfl, rfl, rfl⟩, rfl, rfl,
    forwardPropagation_matches_spec netW (colVec [1, 2, 3]) ⟨rfl, rfl, rfl, rfl⟩ rfl rfl⟩

/-- C5: `query(inputs)` on a well-formed network fails with
`DimensionMismatch` whenever `inputs.length ≠ inputSize` (the first
matrix product is misaligned). -/
theorem query_wrong_length_dimension_mismatch (net : Network) (inputs : List ℝ)
    (hwf : net.WellFormed) (hne : inputs.length ≠ net.inputSize) :
    net.query inputs = Except.error NetError.dimensionMismatch := by
  obtain ⟨w1, w2, w3, w4⟩ := hwf
  simp only [Network.query, Network.forwardPropagation]
  rw [dotE_err (show net.weightsIH.cols ≠ (colVec inputs).rows from by
    rw [w2]; exact fun hh => hne hh.symm)]
  rw [error_bind, error_bind]

theorem query_wrong_length_dimension_mismatch_witness :
    netW.WellFormed ∧ ([1, 2] : List ℝ).length ≠ netW.inputSize ∧
    netW.query [1, 2] = Except.error NetError.dimensionMismatch :=
  ⟨⟨rfl, rfl, rfl, rfl⟩, by decide,
    query_wrong_length_dimension_mismatch netW [1, 2] ⟨rfl, rfl, rfl, rfl⟩ (by decide)⟩

/-- C9: for inputs of length exactly `inputSize`, `query` succeeds and
returns a column vector of length exactly `outputSize`, whatever the
stored activation strategy; when that strategy is the logistic sigmoid,
every entry moreover lies in (0, 1). -/
theorem query_shape_and_sigmoid_range (net : Network) (inputs : List ℝ)
    (hwf : net.WellFormed) (hlen : inputs.length = net.inputSize) :
    ∃ out, net.query inputs = Except.ok out ∧ out.rows = net.outputSize ∧
      out.cols = 1 ∧
      (net.activator = Sigmoid → ∀ i j, 0 < out.entry i j ∧ out.entry i j < 1) := by
  obtain ⟨w1, w2, w3, w4⟩ := hwf
  refine ⟨(net.weightsHO.dot ((net.weightsIH.dot (colVec inputs)).map
    net.activator)).map net.activator, ?_, ?_, ?_, ?_⟩
  · simp only [Network.query]
    rw [forwardPropagation_eval net (colVec inputs)
      (show net.weightsIH.cols = (colVec inputs).rows from by rw [w2]; exact hlen.symm)
      (by rw [w4, w1]), ok_bind]
  · exact w3
  · rfl
  · intro hact i j
    show 0 < net.activator _ ∧ net.activator _ < 1
    rw [hact]
    exact sigmoid_mem_unit _

theorem query_shape_and_sigmoid_range_witness :
    ({ netW with activator := Sigmoid } : Network).WellFormed ∧
    ([1, 2, 3] : List ℝ).length = ({ netW with activator := Sigmoid } : Network).inputSize ∧
    ∃ out, Network.query { netW with activator := Sigmoid } [1, 2, 3] = Except.ok out ∧
      out.rows = ({ netW with activator := Sigmoid } : Network).outputSize ∧
      out.cols = 1 ∧
      (({ netW with activator := Sigmoid } : Network).activator = Sigmoid →
        ∀ i j, 0 < out.entry i j ∧ out.entry i j < 1) :=
  ⟨⟨rfl, rfl, rfl, rfl⟩, rfl,
    query_shape_and_sigmoid_range { netW with activator := Sigmoid } [1, 2, 3]
      ⟨rfl, rfl, rfl, rfl⟩ rfl⟩

/-- C8: two `train` runs on networks with identical initial weights,
learning rate, and activation strategy, with the same trainSet, count,
and a sampler returning the same fixed index sequence, produce
bit-identical final weight matrices (and, on failure, identical
errors). -/
theorem train_deterministic (net1 net2 : Network) (trainSet : TrainSet)
    (count : ℕ) (activator? : Option ActivationStrategy) (sampler : ℕ → ℕ)
    (hIH : net1.weightsIH = net2.weightsIH) (hHO : net1.weightsHO = net2.weightsHO)
    (hLR : net1.LR = net2.LR) (hact : net1.activator = net2.activator) :
    Except.map (fun n => (n.weightsIH, n.weightsHO))
        (net1.train trainSet count activator? sampler) =
      Except.map (fun n => (n.weightsIH, n.weightsHO))
        (net2.train trainSet count activator? sampler) := by
  cases activator? with
  | none => exact trainLoop_core_eq ⟨hIH, hHO, hLR, hact⟩ trainSet sampler count 0
  | some a =>
    exact @trainLoop_core_eq { net1 with activator := a } { net2 with activator := a }
      ⟨hIH, hHO, hLR, rfl⟩ trainSet sampler count 0

theorem train_deterministic_witness :
    netW.weightsIH = ({ netW with inputSize := 7 } : Network).weightsIH ∧
    netW.weightsHO = ({ netW with inputSize := 7 } : Network).weightsHO ∧
    netW.LR = ({ netW with inputSize := 7 } : Network).LR ∧
    netW.activator = ({ netW with inputSize := 7 } : Network).activator ∧
    Except.map (fun n => (n.weightsIH, n.weightsHO))
        (netW.train [⟨[1, 2, 3], [0]⟩] 2 none (fun _ => 0)) =
      Except.map (fun n => (n.weightsIH, n.weightsHO))
        (Network.train { netW with inputSize := 7 } [⟨[1, 2, 3], [0]⟩] 2 none (fun _ => 0)) :=
  ⟨rfl, rfl, rfl, rfl,
    train_deterministic netW { netW with inputSize := 7 } [⟨[1, 2, 3], [0]⟩] 2 none
      (fun _ => 0) rfl rfl rfl rfl⟩

/-- C3: a network constructed with `Network(inputSize, hiddenSize,
outputSize)` has `weightsIH` of shape (hiddenSize, inputSize) and
`weightsHO` of shape (outputSize, hiddenSize); a well-formed network
stays well-formed, with the same sizes, after any successful `train`
call (so after any number of them). -/
theorem network_shape_invariants (i h o : ℕ) (LR : ℝ) (rIH rHO : ℕ → ℕ → ℝ)
    (net net' : Network) (trainSet : TrainSet) (count : ℕ)
    (activator? : Option ActivationStrategy) (sampler : ℕ → ℕ)
    (hwf : net.WellFormed)
    (htr : net.train trainSet count activator? sampler = Except.ok net') :
    (Network.make i h o LR rIH rHO).WellFormed ∧
    net'.WellFormed ∧ net'.inputSize = net.inputSize ∧
    net'.hiddenSize = net.hiddenSize ∧ net'.outputSize = net.outputSize := by
  obtain ⟨w1, w2, w3, w4⟩ := hwf
  refine ⟨⟨rfl, rfl, rfl, rfl⟩, ?_⟩
  cases activator? with
  | none =>
    simp only [Network.train] at htr
    obtain ⟨e1, e2, e3, _, _, e6, e7, e8, e9⟩ := trainLoop_ok_preserves htr
    exact ⟨⟨by rw [e6, e2]; exact w1, by rw [e7, e1]; exact w2,
      by rw [e8, e3]; exact w3, by rw [e9, e2]; exact w4⟩, e1, e2, e3⟩
  | some a =>
    simp only [Network.train] at htr
    obtain ⟨e1, e2, e3, _, _, e6, e7, e8, e9⟩ := trainLoop_ok_preserves htr
    exact ⟨⟨by rw [e6, e2]; exact w1, by rw [e7, e1]; exact w2,
      by rw [e8, e3]; exact w3, by rw [e9, e2]; exact w4⟩, e1, e2, e3⟩

theorem network_shape_invariants_witness :
    netW.WellFormed ∧
    netW.train [⟨[1, 2, 3], [0]⟩] 0 none (fun _ => 0) = Except.ok netW ∧
    ((Network.make 4 5 6 1 (fun _ _ => 0) (fun _ _ => 0)).WellFormed ∧
      netW.WellFormed ∧ netW.inputSize = netW.inputSize ∧
      netW.hiddenSize = netW.hiddenSize ∧ netW.outputSize = netW.outputSize) :=
  ⟨⟨rfl, rfl, rfl, rfl⟩, rfl,
    network_shape_invariants 4 5 6 1 (fun _ _ => 0) (fun _ _ => 0) netW netW
      [⟨[1, 2, 3], [0]⟩] 0 none (fun _ => 0) ⟨rfl, rfl, rfl, rfl⟩ rfl⟩

/-- C1: `backPropagation` computes `outputErrors = target − finalOutputs`,
`hiddenErrors = weightsHOᵗ · outputErrors` with the pre-update
`weightsHO`, the deltas `ΔHO = LR·[(outputErrors ⊙ finalOutputs ⊙
(1−finalOutputs)) · hiddenOutputsᵗ]` and `ΔIH = LR·[(hiddenErrors ⊙
hiddenOutputs ⊙ (1−hiddenOutputs)) · inputᵗ]`, and returns the old
weights plus these deltas. -/
theorem backPropagation_matches_spec (net : Network) (input target : NdArray)
    (r : IForwardResult)
    (h1 : net.weightsHO.rows = target.rows)
    (h2 : target.cols = r.hiddenOutputs.cols)
    (h3 : target.cols = input.cols) :
    net.backPropagation input target r = Except.ok { net with
      weightsHO := net.weightsHO.add
        (specDelta net.LR (target.subtract r.finalOutputs) r.finalOutputs r.hiddenOutputs)
      weightsIH := net.weightsIH.add
        (specDelta net.LR (net.weightsHO.transpose.dot (target.subtract r.finalOutputs))
          r.hiddenOutputs input) } := by
  simp only [Network.backPropagation]
  rw [dotE_ok (show net.weightsHO.transpose.cols = (target.subtract r.finalOutputs).rows from h1),
    ok_bind]
  rw [calcAdditionalWeights_eval net r.hiddenOutputs r.finalOutputs
    (target.subtract r.finalOutputs) h2, ok_bind]
  rw [calcAdditionalWeights_eval net input r.hiddenOutputs
    (net.weightsHO.transpose.dot (target.subtract r.finalOutputs)) h3, ok_bind]
  rw [scale_eq_specScale, scale_eq_specScale]
  rfl

theorem backPropagation_matches_spec_witness :
    netW.weightsHO.rows = (colVec [0]).rows ∧
    (colVec [0]).cols = (colVec [1, 1]).cols ∧
    (colVec [0]).cols = (colVec [1, 2, 3]).cols ∧
    netW.backPropagation (colVec [1, 2, 3]) (colVec [0]) ⟨colVec [1, 1], colVec [1]⟩ =
      Except.ok { netW with
        weightsHO := netW.weightsHO.add
          (specDelta netW.LR ((colVec [0]).subtract (colVec [1])) (colVec [1]) (colVec [1, 1]))
        weightsIH := netW.weightsIH.add
          (specDelta netW.LR
            (netW.weightsHO.transpose.dot ((colVec [0]).subtract (colVec [1])))
            (colVec [1, 1]) (colVec [1, 2, 3])) } :=
  ⟨rfl, rfl, rfl,
    backPropagation_matches_spec netW (colVec [1, 2, 3]) (colVec [0])
      ⟨colVec [1, 1], colVec [1]⟩ rfl rfl rfl⟩
